import Mathlib

/-!
# Verification of the VOLK kernel variants

Shallow embedding of the kernels in this repository:

* `volk_32f_index_min_16u` (generic, a_sse, a_sse4_1, a_avx, u_avx) from the
  `volk_32f_index_min_16u` header.
* `volk_32fc_x2_s32f_square_dist_scalar_mult_32f` (generic / `calculate_scaled_distances`,
  a_sse3, a_avx, a_avx2, u_avx2).
* `volk_32u_popcntpuppet_32u` (e2k, a_sse4_2).

Modelling conventions:

* A 32-bit float value is modelled as `Option ℚ`: `some q` is an ordinary (finite or
  signed-zero) value, `none` is NaN.  The index-of-minimum kernels only ever *compare*
  and *copy* float data, so the embedding is exact: IEEE `<` and `==` return false
  whenever one operand is NaN and otherwise agree with the rational order (both IEEE
  zeroes behave as the single rational 0 under `<` and `==`).  The float-typed SIMD
  index registers hold whole numbers below 2^16 ≤ 2^24, hence are exact and are
  modelled as `ℕ`.
* The square-distance kernels perform arithmetic; values are modelled as exact `ℚ`
  arithmetic, with every intermediate operation of the C code mirrored (same operand
  order, same shuffle structure), so that two variants are proved equal exactly when
  they evaluate the same sequences of primitive operations.
* Buffers are total functions `ℕ → value`; a kernel is modelled by the list of values
  it stores to its output buffer (in store order, the k-th element going to index k),
  plus, where a claim is about memory access, an explicit list of the element indices
  the code reads.
* `uint32_t` / `unsigned int` arithmetic is taken modulo `2 ^ 32` where the C code can
  overflow (`num_points * 8`).
-/

/-! ## Float values and comparisons -/

/-- A 32-bit float datum as the index-min kernels see it: `none` models NaN. -/
abbrev FV := Option ℚ

/-- IEEE `<` on float data: false whenever an operand is NaN. -/
def flt : FV → FV → Bool
  | some a, some b => decide (a < b)
  | _, _ => false

/-- IEEE `==` on float data: false whenever an operand is NaN. -/
def feqv : FV → FV → Bool
  | some a, some b => decide (a = b)
  | _, _ => false

/-! ## `volk_32f_index_min_16u`: the kernels -/

/-- One iteration of the scalar scan shared by the generic kernel's main loop and the
SIMD kernels' cleanup loop: `if (source[i] < min) { index = i; min = source[i]; }`. -/
def minStep (source : ℕ → FV) (st : FV × ℕ) (i : ℕ) : FV × ℕ :=
  if flt (source i) st.1 then (source i, i) else st

/-- `volk_32f_index_min_16u_generic`: clamp `num_points` to `USHRT_MAX = 65535`, then a
strict-less scan starting from `(source[0], 0)` over indices `1 ≤ i < num_points`. -/
def volk_32f_index_min_16u_generic (source : ℕ → FV) (num_points : ℕ) : ℕ :=
  let n := min num_points 65535
  ((List.range' 1 (n - 1)).foldl (minStep source) (source 0, 0)).2

/-- One vector iteration of the SIMD kernels with `L` lanes.  Lane `j` compares the
loaded element `source[L*number + j]` strictly against its running minimum and blends
both the value and the (float-held, exact) index on the comparison mask.  This is
`_mm256_blendv_ps`/`_mm_blendv_ps`, and equally the `and/andnot/or` mask combination of
the plain SSE variant, since the `cmplt` mask is all-ones or all-zeros per lane. -/
def simdLanesStep (L : ℕ) (source : ℕ → FV) (st : ℕ → FV × ℕ) (number : ℕ) :
    ℕ → FV × ℕ :=
  fun j =>
    if flt (source (L * number + j)) (st j).1 then (source (L * number + j), L * number + j)
    else st j

/-- One step of the horizontal reduction loop over the stored lane buffers:
strictly smaller value wins; on an equal value the smaller index wins. -/
def simdRedStep (st : FV × ℕ) (p : FV × ℕ) : FV × ℕ :=
  if flt p.1 st.1 then p
  else if feqv p.1 st.1 then (if p.2 < st.2 then (st.1, p.2) else st)
  else st

/-- Common body of the SIMD `volk_32f_index_min_16u` variants with `L` lanes
(`L = 8` for AVX, `L = 4` for SSE/SSE4.1): clamp to `USHRT_MAX`, run `n / L` vector
iterations, store the lanes and reduce them with the tie-breaking scalar loop, then a
scalar cleanup scan over the remaining `n % L` elements. -/
def indexMinSimd (L : ℕ) (source : ℕ → FV) (num_points : ℕ) : ℕ :=
  let n := min num_points 65535
  let vecPoints := n / L
  let lanes := (List.range vecPoints).foldl (simdLanesStep L source) fun _ => (source 0, 0)
  let red := (List.range L).foldl (fun st j => simdRedStep st (lanes j)) (source 0, 0)
  ((List.range' (L * vecPoints) (n - L * vecPoints)).foldl (minStep source) red).2

/-- `volk_32f_index_min_16u_a_avx` (8 float lanes per `__m256`). -/
def volk_32f_index_min_16u_a_avx (source : ℕ → FV) (num_points : ℕ) : ℕ :=
  indexMinSimd 8 source num_points

/-- `volk_32f_index_min_16u_u_avx`: identical dataflow to the aligned AVX variant, the
only difference in the C code being unaligned load/store instructions. -/
def volk_32f_index_min_16u_u_avx (source : ℕ → FV) (num_points : ℕ) : ℕ :=
  indexMinSimd 8 source num_points

/-- `volk_32f_index_min_16u_a_sse4_1` (4 float lanes per `__m128`, `_mm_blendv_ps`). -/
def volk_32f_index_min_16u_a_sse4_1 (source : ℕ → FV) (num_points : ℕ) : ℕ :=
  indexMinSimd 4 source num_points

/-- `volk_32f_index_min_16u_a_sse` (4 float lanes, blend done with
`_mm_and_ps`/`_mm_andnot_ps`/`_mm_or_ps` on the all-ones/all-zeros `cmplt` mask,
which is the same per-lane select). -/
def volk_32f_index_min_16u_a_sse (source : ℕ → FV) (num_points : ℕ) : ℕ :=
  indexMinSimd 4 source num_points

/-! ## A canonical description of the index-min scan

`bestOf` is the tie-aware one-step minimum ("strictly smaller value wins, an equal
value with a smaller index wins"), and `bestPair source n` folds it over the pairs
`(source t, t)` for `t < n` starting from `(source 0, 0)`.  All kernel variants are
proved to compute `(bestPair source (min num_points 65535)).2`. -/

def bestOf (st p : FV × ℕ) : FV × ℕ :=
  if flt p.1 st.1 then p
  else if feqv p.1 st.1 && decide (p.2 < st.2) then p
  else st

def pairsUpTo (source : ℕ → FV) (n : ℕ) : List (FV × ℕ) :=
  (List.range n).map fun t => (source t, t)

def bestPair (source : ℕ → FV) (n : ℕ) : FV × ℕ :=
  (pairsUpTo source n).foldl bestOf (source 0, 0)

/-- The spec's tie-break test vector `[5, 2, 2, 7]` (zero beyond the buffer). -/
def tieExample : ℕ → FV := fun i => some (List.getD [(5 : ℚ), 2, 2, 7] i 0)

/-- An all-zero input buffer, used to instantiate general theorems. -/
def constZeroSource : ℕ → FV := fun _ => some 0

/-- `p` dominates `q`: `p` carries a non-NaN value that is strictly below `q`'s value,
or equal to it with an index at most `q`'s (vacuous if `q` is NaN). -/
def domBy (p q : FV × ℕ) : Prop :=
  ∃ a, p.1 = some a ∧ ∀ b, q.1 = some b → a < b ∨ (a = b ∧ p.2 ≤ q.2)

/-- `r` is the tie-aware minimum of `init` and the pairs in `P`. -/
structure GoodMin (P : List (FV × ℕ)) (init r : FV × ℕ) : Prop where
  mem : r ∈ init :: P
  dom : ∀ q ∈ init :: P, domBy r q

/-! ## `volk_32fc_x2_s32f_square_dist_scalar_mult_32f`: the kernels

A `lv_32fc_t` buffer of complex points is modelled through its raw float view
`p : ℕ → ℚ`: `p (2*k)` is the real part and `p (2*k+1)` the imaginary part of
`points[k]`.  The single complex input `src0[0]` is the pair `(sr, si)`.  SIMD
registers are modelled as lists of 4 (`__m128`) or 8 (`__m256`) rationals; loads,
arithmetic and shuffles mirror the intrinsics of the code.  A kernel is modelled by
the list of float values it stores to `target`, in store order (the k-th stored float
goes to `target[k]`). -/

/-- `_mm_load_ps` / `_mm_loadu_ps` of the 4 floats at `p[base..base+4)`. -/
def load4 (p : ℕ → ℚ) (base : ℕ) : List ℚ :=
  [p base, p (base + 1), p (base + 2), p (base + 3)]

/-- `_mm256_load_ps` / `_mm256_loadu_ps` of the 8 floats at `p[base..base+8)`. -/
def load8 (p : ℕ → ℚ) (base : ℕ) : List ℚ :=
  [p base, p (base + 1), p (base + 2), p (base + 3),
    p (base + 4), p (base + 5), p (base + 6), p (base + 7)]

/-- `_mm_sub_ps` / `_mm256_sub_ps` (element-wise). -/
def vsub (a b : List ℚ) : List ℚ := List.zipWith (· - ·) a b

/-- `_mm_mul_ps` / `_mm256_mul_ps` (element-wise). -/
def vmul (a b : List ℚ) : List ℚ := List.zipWith (· * ·) a b

/-- `_mm_hadd_ps`: `[a0+a1, a2+a3, b0+b1, b2+b3]`. -/
def hadd4 : List ℚ → List ℚ → List ℚ
  | [a0, a1, a2, a3], [b0, b1, b2, b3] => [a0 + a1, a2 + a3, b0 + b1, b2 + b3]
  | _, _ => []

/-- `_mm256_hadd_ps` (acts on the two 128-bit halves independently). -/
def hadd8 : List ℚ → List ℚ → List ℚ
  | [a0, a1, a2, a3, a4, a5, a6, a7], [b0, b1, b2, b3, b4, b5, b6, b7] =>
      [a0 + a1, a2 + a3, b0 + b1, b2 + b3, a4 + a5, a6 + a7, b4 + b5, b6 + b7]
  | _, _ => []

/-- `_mm256_permutevar8x32_ps` with the index vector
`_mm256_set_epi32(7,6,3,2,5,4,1,0)` of the AVX2 variants: element `j` of the result
is element `idx[j]` of the source, `idx = [0,1,4,5,2,3,6,7]`. -/
def permuteIdx : List ℚ → List ℚ
  | [a0, a1, a2, a3, a4, a5, a6, a7] => [a0, a1, a4, a5, a2, a3, a6, a7]
  | _ => []

/-- `_mm_permute_ps(x, 0x4E)`: swap the two 64-bit halves of a `__m128`. -/
def permute4E : List ℚ → List ℚ
  | [a0, a1, a2, a3] => [a2, a3, a0, a1]
  | _ => []

/-- `_mm256_blend_ps(a, b, 0xCC)`: take elements 2, 3, 6, 7 from `b`. -/
def blendCC : List ℚ → List ℚ → List ℚ
  | [a0, a1, _, _, a4, a5, _, _], [_, _, b2, b3, _, _, b6, b7] =>
      [a0, a1, b2, b3, a4, a5, b6, b7]
  | _, _ => []

/-- `_mm_load1_ps` / `_mm256_set1_ps` broadcast into 4 lanes. -/
def set1x4 (x : ℚ) : List ℚ := [x, x, x, x]

/-- `_mm256_set1_ps` broadcast into 8 lanes. -/
def set1x8 (x : ℚ) : List ℚ := [x, x, x, x, x, x, x, x]

/-- The upper 128-bit half, `_mm256_extractf128_ps(v, 1)`. -/
def hi128 : List ℚ → List ℚ
  | [_, _, _, _, a4, a5, a6, a7] => [a4, a5, a6, a7]
  | _ => []

/-- The lower 128-bit half, `_mm256_extractf128_ps(v, 0)` /
`_mm256_castps256_ps128`. -/
def lo128 : List ℚ → List ℚ
  | [a0, a1, a2, a3, _, _, _, _] => [a0, a1, a2, a3]
  | _ => []

/-- `_mm_storeh_pi`: store the upper two floats of a `__m128`. -/
def storeh : List ℚ → List ℚ
  | [_, _, a2, a3] => [a2, a3]
  | _ => []

/-- `calculate_scaled_distances`: the scalar loop.  The symbol is `(sr, si)`, the
`points` pointer stands at complex index `off`, and `cnt` elements are processed:
`diff = symbol - *points++; *target++ = scalar * (creal(diff)^2 + cimag(diff)^2)`. -/
def calculate_scaled_distances (sr si scalar : ℚ) (p : ℕ → ℚ) (off cnt : ℕ) : List ℚ :=
  (List.range cnt).map fun i =>
    scalar * ((sr - p (2 * (off + i))) * (sr - p (2 * (off + i)))
      + (si - p (2 * (off + i) + 1)) * (si - p (2 * (off + i) + 1)))

/-- `volk_32fc_x2_s32f_square_dist_scalar_mult_32f_generic`: reads the symbol
`src0[0]` and runs the scalar loop over all `num_points` points. -/
def volk_32fc_x2_s32f_square_dist_scalar_mult_32f_generic (sr si : ℚ) (p : ℕ → ℚ)
    (scalar : ℚ) (num_points : ℕ) : List ℚ :=
  calculate_scaled_distances sr si scalar p 0 num_points

/-- One main-loop iteration of the AVX2 variants on the 8 complex points at complex
index `c`: loads `xmm2`/`xmm3`, subtract from the broadcast symbol `xmm1`, square,
`hadd`, `permutevar8x32`, scale — the 8 floats stored to `target`. -/
def avx2Block8 (sr si scalar : ℚ) (p : ℕ → ℚ) (c : ℕ) : List ℚ :=
  let xmm1 := [sr, si, sr, si, sr, si, sr, si]
  let xmm2 := load8 p (2 * c)
  let xmm3 := load8 p (2 * c + 8)
  let xmm4 := vsub xmm1 xmm2
  let xmm5 := vsub xmm1 xmm3
  let xmm6 := vmul xmm4 xmm4
  let xmm7 := vmul xmm5 xmm5
  vmul (permuteIdx (hadd8 xmm6 xmm7)) (set1x8 scalar)

/-- The 4-point leftover block of the AVX2 variants at complex index `c` (a 256-bit
load, `hadd` with itself, permute, scale, and the store of the upper half). -/
def avx2Block4 (sr si scalar : ℚ) (p : ℕ → ℚ) (c : ℕ) : List ℚ :=
  let xmm1 := [sr, si, sr, si, sr, si, sr, si]
  let xmm2 := load8 p (2 * c)
  let xmm4 := vsub xmm1 xmm2
  let xmm6 := vmul xmm4 xmm4
  hi128 (vmul (permuteIdx (hadd8 xmm6 xmm6)) (set1x8 scalar))

/-- The 2-point leftover block of the aligned AVX2 variant at complex index `c`
(`xmm0 = [sr, si, sr, si]` after `_mm_permute_ps(..., 0b01000100)`; `xmm11` is the
scalar broadcast `_mm256_extractf128_ps(xmm8, 1)`). -/
def avx2Block2 (sr si scalar : ℚ) (p : ℕ → ℚ) (c : ℕ) : List ℚ :=
  let xmm0 := [sr, si, sr, si]
  let xmm9 := load4 p (2 * c)
  let xmm10 := vsub xmm0 xmm9
  storeh (vmul (hadd4 (vmul xmm10 xmm10) (vmul xmm10 xmm10)) (set1x4 scalar))

/-- `volk_32fc_x2_s32f_square_dist_scalar_mult_32f_a_avx2`.
`num_bytes = num_points * 8` in 32-bit unsigned arithmetic; `bound = num_bytes >> 6`
main iterations of 8 points (each using the block pre-loaded for it), then one
4-point block if `(num_bytes >> 5) & 1`, one 2-point block if `(num_bytes >> 4) & 1`,
and a scalar tail of `(num_bytes >> 3) & 1` points, with the `points` pointer
advancing 8, 4, 2 complex elements per respective block. -/
def volk_32fc_x2_s32f_square_dist_scalar_mult_32f_a_avx2 (sr si : ℚ) (p : ℕ → ℚ)
    (scalar : ℚ) (num_points : ℕ) : List ℚ :=
  let num_bytes := num_points * 8 % 2 ^ 32
  let bound := num_bytes / 64
  let leftovers0 := num_bytes / 32 % 2
  let leftovers1 := num_bytes / 16 % 2
  let leftovers2 := num_bytes / 8 % 2
  ((List.range bound).flatMap fun i => avx2Block8 sr si scalar p (8 * i))
    ++ ((List.range leftovers0).flatMap fun i => avx2Block4 sr si scalar p (8 * bound + 4 * i))
    ++ ((List.range leftovers1).flatMap fun i =>
        avx2Block2 sr si scalar p (8 * bound + 4 * leftovers0 + 2 * i))
    ++ calculate_scaled_distances sr si scalar p (8 * bound + 4 * leftovers0 + 2 * leftovers1)
      leftovers2

/-- `volk_32fc_x2_s32f_square_dist_scalar_mult_32f_u_avx2`: same main loop and
4-point block as the aligned form (with unaligned loads/stores), then a scalar tail
of `(num_bytes >> 3) & 0b11` points. -/
def volk_32fc_x2_s32f_square_dist_scalar_mult_32f_u_avx2 (sr si : ℚ) (p : ℕ → ℚ)
    (scalar : ℚ) (num_points : ℕ) : List ℚ :=
  let num_bytes := num_points * 8 % 2 ^ 32
  let bound := num_bytes / 64
  let leftovers0 := num_bytes / 32 % 2
  let leftovers1 := num_bytes / 8 % 4
  ((List.range bound).flatMap fun i => avx2Block8 sr si scalar p (8 * i))
    ++ ((List.range leftovers0).flatMap fun i => avx2Block4 sr si scalar p (8 * bound + 4 * i))
    ++ calculate_scaled_distances sr si scalar p (8 * bound + 4 * leftovers0) leftovers1

/-- One 4-point `__m128` block of the SSE3 variant at complex index `c`
(`xmm1 = [sr, si, sr, si]` via `_mm_loadl_pi`/`_mm_movelh_ps`). -/
def sse3Block4 (sr si scalar : ℚ) (p : ℕ → ℚ) (c : ℕ) : List ℚ :=
  let xmm1 := [sr, si, sr, si]
  let xmm2 := load4 p (2 * c)
  let xmm3 := load4 p (2 * c + 4)
  let xmm4 := vsub xmm1 xmm2
  let xmm5 := vsub xmm1 xmm3
  vmul (hadd4 (vmul xmm4 xmm4) (vmul xmm5 xmm5)) (set1x4 scalar)

/-- The 2-point leftover block of the SSE3 variant at complex index `c`. -/
def sse3Block2 (sr si scalar : ℚ) (p : ℕ → ℚ) (c : ℕ) : List ℚ :=
  let xmm1 := [sr, si, sr, si]
  let xmm2 := load4 p (2 * c)
  let xmm4 := vsub xmm1 xmm2
  storeh (vmul (hadd4 (vmul xmm4 xmm4) (vmul xmm4 xmm4)) (set1x4 scalar))

/-- `volk_32fc_x2_s32f_square_dist_scalar_mult_32f_a_sse3`.  The main loop runs
`bound - 1` times (`int` arithmetic: zero times when `bound = 0`) on the 4-point
block pre-loaded in the previous iteration, and the final 4-point block is peeled and
executed *unconditionally* — also when `bound = 0` (`num_points < 4`), in which case
it operates on the unconditionally pre-loaded `points[0..4)` and still stores 4
floats.  The truncated ℕ subtraction in `4 * (bound - 1)` matches this: the peeled
block reads complex index `4*(bound-1)` for `bound ≥ 1` and index 0 for `bound = 0`.
After the peel the pointer stands at `4*(bound-1) + 4`, where the 2-point block
(if `(num_bytes >> 4) & 1`) and the scalar tail (`(num_bytes >> 3) & 1` points)
continue. -/
def volk_32fc_x2_s32f_square_dist_scalar_mult_32f_a_sse3 (sr si : ℚ) (p : ℕ → ℚ)
    (scalar : ℚ) (num_points : ℕ) : List ℚ :=
  let num_bytes := num_points * 8 % 2 ^ 32
  let bound := num_bytes / 32
  let leftovers0 := num_bytes / 16 % 2
  let leftovers1 := num_bytes / 8 % 2
  let peeled := 4 * (bound - 1) + 4
  ((List.range (bound - 1)).flatMap fun i => sse3Block4 sr si scalar p (4 * i))
    ++ sse3Block4 sr si scalar p (4 * (bound - 1))
    ++ ((List.range leftovers0).flatMap fun i => sse3Block2 sr si scalar p (peeled + 2 * i))
    ++ calculate_scaled_distances sr si scalar p (peeled + 2 * leftovers0) leftovers1

/-- The float indices of the `points` buffer loaded by the SSE3 variant, in program
order: the two unconditional initial `_mm_load_ps` (floats `0..7`, i.e.
`points[0..4)`), the two loads per main-loop iteration (pre-loading the next block),
the leftover `_mm_load_ps`, and the scalar tail reads. -/
def sse3PointFloatReads (num_points : ℕ) : List ℕ :=
  let num_bytes := num_points * 8 % 2 ^ 32
  let bound := num_bytes / 32
  let leftovers0 := num_bytes / 16 % 2
  let leftovers1 := num_bytes / 8 % 2
  let peeled := 4 * (bound - 1) + 4
  ([0, 1, 2, 3] ++ [4, 5, 6, 7])
    ++ ((List.range (bound - 1)).flatMap fun i =>
        [8 * (i + 1), 8 * (i + 1) + 1, 8 * (i + 1) + 2, 8 * (i + 1) + 3,
          8 * (i + 1) + 4, 8 * (i + 1) + 5, 8 * (i + 1) + 6, 8 * (i + 1) + 7])
    ++ ((List.range leftovers0).flatMap fun i =>
        [2 * (peeled + 2 * i), 2 * (peeled + 2 * i) + 1,
          2 * (peeled + 2 * i) + 2, 2 * (peeled + 2 * i) + 3])
    ++ ((List.range (2 * leftovers1)).map fun r => 2 * (peeled + 2 * leftovers0) + r)

/-- One work-size-8 iteration of `volk_32fc_x2_s32f_square_dist_scalar_mult_32f_a_avx`
at complex index `c`, mirroring its `hadd` / `extractf128` / `permute` /
`insertf128` / `blend` sequence.  (The undefined upper half left by
`_mm256_castps128_ps256` is immediately overwritten by `_mm256_insertf128_ps` before
any use, so the model writes both halves directly.) -/
def avxBlock8 (sr si scalar : ℚ) (p : ℕ → ℚ) (c : ℕ) : List ℚ :=
  let source := [sr, si, sr, si, sr, si, sr, si]
  let points_low := load8 p (2 * c)
  let points_high := load8 p (2 * c + 8)
  let difference_low := vmul (vsub source points_low) (vsub source points_low)
  let difference_high := vmul (vsub source points_high) (vsub source points_high)
  let magnitudes_squared := hadd8 difference_low difference_high
  let lower_bottom := lo128 magnitudes_squared
  let upper_top := hi128 magnitudes_squared
  let lower := lower_bottom ++ permute4E lower_bottom
  let upper := permute4E upper_top ++ upper_top
  vmul (blendCC lower upper) (set1x8 scalar)

/-- `volk_32fc_x2_s32f_square_dist_scalar_mult_32f_a_avx`: `work_size = 8`,
`avx_work_size = num_points / 8 * 8` points in the vector loop, then the scalar loop
over the remainder. -/
def volk_32fc_x2_s32f_square_dist_scalar_mult_32f_a_avx (sr si : ℚ) (p : ℕ → ℚ)
    (scalar : ℚ) (num_points : ℕ) : List ℚ :=
  let work_size := 8
  let avx_work_size := num_points / work_size * work_size
  ((List.range (avx_work_size / work_size)).flatMap fun i =>
      avxBlock8 sr si scalar p (work_size * i))
    ++ calculate_scaled_distances sr si scalar p avx_work_size (num_points - avx_work_size)

/-- The scaled squared distance of the symbol `(sr, si)` to `points[k]`, written in
the operand order of the SIMD kernels: `((re diff)^2 + (im diff)^2) * scalar`. -/
def dval (sr si scalar : ℚ) (p : ℕ → ℚ) (k : ℕ) : ℚ :=
  ((sr - p (2 * k)) * (sr - p (2 * k)) + (si - p (2 * k + 1)) * (si - p (2 * k + 1)))
    * scalar

/-- The all-zero raw float buffer. -/
def constZeroQ : ℕ → ℚ := fun _ => 0

/-! ## The spec's 16-QAM end-to-end example -/

/-- `const_vals = {-3, -1, 1, 3}`. -/
def constVals : ℕ → ℚ := fun k => List.getD [(-3 : ℚ), -1, 1, 3] k 0

/-- Real part of constellation point `k`: `const_vals[k % 4]`. -/
def c6re (k : ℕ) : ℚ := constVals (k % 4)

/-- Imaginary part of constellation point `k`: `const_vals[k / 4]`. -/
def c6im (k : ℕ) : ℚ := constVals (k / 4 % 4)

/-- The raw float view of the 16-point constellation buffer. -/
def c6pts : ℕ → ℚ := fun i => if i % 2 = 0 then c6re (i / 2) else c6im (i / 2)

/-! ## `volk_32u_popcntpuppet_32u`: the puppet adapters -/

/-- Modelled from the spec: `volk_32u_popcnt_e2k` lives in `volk/volk_32u_popcnt.h`,
which is not part of `src/`; the spec names its operation "population count" of a
single 32-bit word, written through the kernel's output pointer. -/
def volk_32u_popcnt_e2k (value : ℕ) : ℕ :=
  (List.range 32).foldl (fun acc i => acc + value / 2 ^ i % 2) 0

/-- Modelled from the spec: `volk_32u_popcnt_a_sse4_2` (from the same header missing
from `src/`); the population count of a single 32-bit word. -/
def volk_32u_popcnt_a_sse4_2 (value : ℕ) : ℕ :=
  (List.range 32).foldl (fun acc i => acc + value / 2 ^ i % 2) 0

/-- `volk_32u_popcntpuppet_32u_e2k`: for each `ii < num_points` the adapter calls
`volk_32u_popcnt_e2k(outVector + ii, *(inVector + ii))`; modelled as the list of
values written to `outVector[0..num_points)`. -/
def volk_32u_popcntpuppet_32u_e2k (inVector : ℕ → ℕ) (num_points : ℕ) : List ℕ :=
  (List.range num_points).map fun ii => volk_32u_popcnt_e2k (inVector ii)

/-- `volk_32u_popcntpuppet_32u_a_sse4_2`: the same adapter shape around
`volk_32u_popcnt_a_sse4_2`. -/
def volk_32u_popcntpuppet_32u_a_sse4_2 (inVector : ℕ → ℕ) (num_points : ℕ) : List ℕ :=
  (List.range num_points).map fun ii => volk_32u_popcnt_a_sse4_2 (inVector ii)

theorem domBy_trans {p q r : FV × ℕ} (h1 : domBy p q) (h2 : domBy q r) : domBy p r := by
  obtain ⟨a, ha, hpq⟩ := h1
  obtain ⟨b, hb, hqr⟩ := h2
  refine ⟨a, ha, fun c hc => ?_⟩
  rcases hpq b hb with h | ⟨h, hi⟩ <;> rcases hqr c hc with h' | ⟨h', hi'⟩
  · exact Or.inl (h.trans h')
  · exact Or.inl (h'.symm ▸ h)
  · exact Or.inl (h ▸ h')
  · exact Or.inr ⟨h.trans h', hi.trans hi'⟩

theorem goodMin_unique {P : List (FV × ℕ)} {init r r' : FV × ℕ}
    (h : GoodMin P init r) (h' : GoodMin P init r') : r = r' := by
  obtain ⟨a, ha, hd⟩ := h.dom r' h'.mem
  obtain ⟨b, hb, hd'⟩ := h'.dom r h.mem
  rcases hd b hb with hlt | ⟨heq, hle⟩ <;> rcases hd' a ha with hlt' | ⟨heq', hle'⟩
  · exact absurd (hlt.trans hlt') (lt_irrefl _)
  · exact absurd (heq' ▸ hlt) (lt_irrefl _)
  · exact absurd (heq ▸ hlt') (lt_irrefl _)
  · exact Prod.ext (ha.trans (heq ▸ hb.symm)) (le_antisymm hle hle')

theorem goodMin_congr {P Q : List (FV × ℕ)} {init r : FV × ℕ}
    (hPQ : ∀ x, x ∈ init :: P ↔ x ∈ init :: Q) (h : GoodMin P init r) :
    GoodMin Q init r :=
  ⟨(hPQ r).mp h.mem, fun q hq => h.dom q ((hPQ q).mpr hq)⟩

theorem goodMin_nil (init : FV × ℕ) (a : ℚ) (ha : init.1 = some a) :
    GoodMin [] init init :=
  ⟨List.mem_cons_self _ _, by
    intro q hq
    rcases List.mem_cons.mp hq with rfl | h
    · exact ⟨a, ha, fun b hb => Or.inr ⟨by rw [ha] at hb; exact Option.some.inj hb, le_refl _⟩⟩
    · cases h⟩

theorem flt_iff {x y : FV} : flt x y = true ↔ ∃ a b, x = some a ∧ y = some b ∧ a < b := by
  cases x <;> cases y <;> simp [flt]

theorem feqv_iff {x y : FV} : feqv x y = true ↔ ∃ a b, x = some a ∧ y = some b ∧ a = b := by
  cases x <;> cases y <;> simp [feqv]

theorem flt_none_right {x : FV} : flt x none = false := by cases x <;> rfl

theorem feqv_none_right {x : FV} : feqv x none = false := by cases x <;> rfl

/-- Folding one raw pair into a tie-aware running minimum keeps it a tie-aware minimum. -/
theorem bestOf_pair_good {P : List (FV × ℕ)} {init st : FV × ℕ} (p : FV × ℕ)
    (h : GoodMin P init st) : GoodMin (P ++ [p]) init (bestOf st p) := by
  obtain ⟨a, ha, hsd⟩ := h.dom st h.mem
  have hmemS : st ∈ init :: (P ++ [p]) := by
    rcases List.mem_cons.mp h.mem with rfl | hmem
    · exact List.mem_cons_self _ _
    · exact List.mem_cons_of_mem _ (List.mem_append_left _ hmem)
  have hdomO : ∀ q ∈ init :: (P ++ [p]), q = p ∨ domBy st q := by
    intro q hq
    rcases List.mem_cons.mp hq with rfl | hq'
    · exact Or.inr (h.dom q (List.mem_cons_self _ _))
    · rcases List.mem_append.mp hq' with hq'' | hq''
      · exact Or.inr (h.dom q (List.mem_cons_of_mem _ hq''))
      · exact Or.inl (List.mem_singleton.mp hq'')
  rcases hp : p.1 with _ | b
  · -- the candidate is NaN: both guards are false, the state survives
    have h1 : flt p.1 st.1 = false := by rw [hp]; cases st.1 <;> rfl
    have h2 : feqv p.1 st.1 = false := by rw [hp]; cases st.1 <;> rfl
    have hbest : bestOf st p = st := by simp [bestOf, h1, h2]
    rw [hbest]
    refine ⟨hmemS, fun q hq => ?_⟩
    rcases hdomO q hq with rfl | hd
    · exact ⟨a, ha, fun b hb => by rw [hp] at hb; simp at hb⟩
    · exact hd
  · have hmemP : p ∈ init :: (P ++ [p]) :=
      List.mem_cons_of_mem _ (List.mem_append_right _ (List.mem_singleton.mpr rfl))
    have hpp : domBy p p :=
      ⟨b, hp, fun c hc => Or.inr ⟨by rw [hp] at hc; exact Option.some.inj hc, le_refl _⟩⟩
    by_cases hf : flt p.1 st.1 = true
    · -- strictly smaller value: the candidate wins
      have hba : b < a := by
        rw [hp, ha] at hf; simpa [flt] using hf
      have hps : domBy p st := ⟨b, hp, fun c hc => by
        rw [ha] at hc; exact Or.inl (Option.some.inj hc ▸ hba)⟩
      have hbest : bestOf st p = p := by simp [bestOf, hf]
      rw [hbest]
      refine ⟨hmemP, fun q hq => ?_⟩
      rcases hdomO q hq with rfl | hd
      · exact hpp
      · exact domBy_trans hps hd
    · by_cases hfe : (feqv p.1 st.1 && decide (p.2 < st.2)) = true
      · -- equal value, strictly smaller index: the candidate wins
        obtain ⟨hfeq, hlt⟩ := Bool.and_eq_true_iff.mp hfe
        have hba : b = a := by rw [hp, ha] at hfeq; simpa [feqv] using hfeq
        have hlt' : p.2 < st.2 := of_decide_eq_true hlt
        have hps : domBy p st := by
          refine ⟨b, hp, fun c hc => ?_⟩
          rw [ha] at hc
          exact Or.inr ⟨hba.trans (Option.some.inj hc), hlt'.le⟩
        have hbest : bestOf st p = p := by
          simp only [bestOf, hf]
          simp [hfe]
        rw [hbest]
        refine ⟨hmemP, fun q hq => ?_⟩
        rcases hdomO q hq with rfl | hd
        · exact hpp
        · exact domBy_trans hps hd
      · -- the state survives; it dominates the candidate
        have hsp : domBy st p := by
          refine ⟨a, ha, fun c hc => ?_⟩
          rw [hp] at hc
          have hcb : c = b := (Option.some.inj hc).symm
          subst hcb
          rcases lt_trichotomy a c with h' | h' | h'
          · exact Or.inl h'
          · have hfeq : feqv p.1 st.1 = true := by rw [hp, ha]; simp [feqv, h'.symm]
            have hnlt : ¬ p.2 < st.2 := fun hl => hfe (by simp [hfeq, hl])
            exact Or.inr ⟨h', Nat.le_of_not_lt hnlt⟩
          · exfalso
            apply hf
            rw [hp, ha]
            simp [flt, h']
        have hbest : bestOf st p = st := by
          simp only [bestOf]
          rw [if_neg (fun hh => hf hh), if_neg (fun hh => hfe hh)]
        rw [hbest]
        refine ⟨hmemS, fun q hq => ?_⟩
        rcases hdomO q hq with rfl | hd
        · exact hsp
        · exact hd

theorem bestOf_fold_pairs {init : FV × ℕ} :
    ∀ (l : List (FV × ℕ)) {P : List (FV × ℕ)} {st : FV × ℕ}, GoodMin P init st →
      GoodMin (P ++ l) init (l.foldl bestOf st)
  | [], P, st, h => by simpa using h
  | p :: l, P, st, h => by
    have h1 := bestOf_pair_good p h
    have h2 := bestOf_fold_pairs l h1
    simpa [List.append_assoc] using h2

theorem bestPair_good (source : ℕ → FV) (n : ℕ) {a : ℚ} (h0 : source 0 = some a) :
    GoodMin (pairsUpTo source n) (source 0, 0) (bestPair source n) := by
  have := bestOf_fold_pairs (pairsUpTo source n)
    (goodMin_nil (source 0, 0) a h0)
  simpa [bestPair] using this

/-- `bestOf` of two non-NaN candidates picks one of them and dominates the other. -/
theorem bestOf_spec {st p : FV × ℕ} {a b : ℚ} (ha : st.1 = some a) (hb : p.1 = some b) :
    (bestOf st p = p ∧ domBy p st) ∨ (bestOf st p = st ∧ domBy st p) := by
  by_cases hf : flt p.1 st.1 = true
  · left
    have hba : b < a := by rw [hb, ha] at hf; simpa [flt] using hf
    exact ⟨by simp [bestOf, hf],
      ⟨b, hb, fun c hc => by rw [ha] at hc; exact Or.inl (Option.some.inj hc ▸ hba)⟩⟩
  · by_cases hfe : (feqv p.1 st.1 && decide (p.2 < st.2)) = true
    · left
      obtain ⟨hfeq, hlt⟩ := Bool.and_eq_true_iff.mp hfe
      have hba : b = a := by rw [hb, ha] at hfeq; simpa [feqv] using hfeq
      have hlt' : p.2 < st.2 := of_decide_eq_true hlt
      refine ⟨by simp only [bestOf, hf]; simp [hfe], b, hb, fun c hc => ?_⟩
      rw [ha] at hc
      exact Or.inr ⟨hba.trans (Option.some.inj hc), hlt'.le⟩
    · right
      refine ⟨by simp only [bestOf]; rw [if_neg (fun hh => hf hh), if_neg (fun hh => hfe hh)],
        a, ha, fun c hc => ?_⟩
      rw [hb] at hc
      have hcb : c = b := (Option.some.inj hc).symm
      subst hcb
      rcases lt_trichotomy a c with h' | h' | h'
      · exact Or.inl h'
      · have hfeq : feqv p.1 st.1 = true := by rw [hb, ha]; simp [feqv, h'.symm]
        have hnlt : ¬ p.2 < st.2 := fun hl => hfe (by simp [hfeq, hl])
        exact Or.inr ⟨h', Nat.le_of_not_lt hnlt⟩
      · exfalso; apply hf; rw [hb, ha]; simp [flt, h']

/-- Combining two tie-aware minima of sublists with `bestOf` yields a tie-aware minimum
of the combined list. -/
theorem bestOf_good {P Q : List (FV × ℕ)} {init st p : FV × ℕ}
    (h1 : GoodMin P init st) (h2 : GoodMin Q init p) :
    GoodMin (P ++ Q) init (bestOf st p) := by
  obtain ⟨a, ha, _⟩ := h1.dom st h1.mem
  obtain ⟨b, hb, _⟩ := h2.dom p h2.mem
  have hmemS : st ∈ init :: (P ++ Q) := by
    rcases List.mem_cons.mp h1.mem with rfl | hmem
    · exact List.mem_cons_self _ _
    · exact List.mem_cons_of_mem _ (List.mem_append_left _ hmem)
  have hmemP : p ∈ init :: (P ++ Q) := by
    rcases List.mem_cons.mp h2.mem with rfl | hmem
    · exact List.mem_cons_self _ _
    · exact List.mem_cons_of_mem _ (List.mem_append_right _ hmem)
  have hdomO : ∀ q ∈ init :: (P ++ Q), domBy st q ∨ domBy p q := by
    intro q hq
    rcases List.mem_cons.mp hq with rfl | hq'
    · exact Or.inl (h1.dom q (List.mem_cons_self _ _))
    · rcases List.mem_append.mp hq' with hq'' | hq''
      · exact Or.inl (h1.dom q (List.mem_cons_of_mem _ hq''))
      · exact Or.inr (h2.dom q (List.mem_cons_of_mem _ hq''))
  rcases bestOf_spec ha hb with ⟨hbest, hdom⟩ | ⟨hbest, hdom⟩
  · rw [hbest]
    refine ⟨hmemP, fun q hq => ?_⟩
    rcases hdomO q hq with hd | hd
    · exact domBy_trans hdom hd
    · exact hd
  · rw [hbest]
    refine ⟨hmemS, fun q hq => ?_⟩
    rcases hdomO q hq with hd | hd
    · exact hd
    · exact domBy_trans hdom hd

/-- The horizontal-reduction loop is the `bestOf` combination. -/
theorem simdRedStep_eq_bestOf (st p : FV × ℕ) : simdRedStep st p = bestOf st p := by
  unfold simdRedStep bestOf
  by_cases hf : flt p.1 st.1 = true
  · simp [hf]
  · by_cases hfe : feqv p.1 st.1 = true
    · have hp1 : st.1 = p.1 := by
        rcases feqv_iff.mp hfe with ⟨c, d, hpc, hsd, hcd⟩
        rw [hpc, hsd, hcd]
      by_cases hlt : p.2 < st.2
      · simp only [Bool.not_eq_true] at hf
        simp [hf, hfe, hlt, Prod.ext_iff]
        exact hp1
      · simp [hf, hfe, hlt]
    · simp [hf, hfe]

theorem redFold_good {init : FV × ℕ} (lanes : ℕ → FV × ℕ) (Lf : ℕ → List (FV × ℕ)) :
    ∀ (js : List ℕ) {P : List (FV × ℕ)} {st : FV × ℕ},
      GoodMin P init st → (∀ j ∈ js, GoodMin (Lf j) init (lanes j)) →
      GoodMin (P ++ js.flatMap Lf) init (js.foldl (fun st j => bestOf st (lanes j)) st)
  | [], P, st, h, _ => by simpa using h
  | j :: js, P, st, h, hl => by
    have h1 := bestOf_good h (hl j (List.mem_cons_self _ _))
    have h2 := redFold_good lanes Lf js h1 fun j' hj' => hl j' (List.mem_cons_of_mem _ hj')
    simpa [List.append_assoc] using h2

/-- The scalar strict-less scan step agrees with `bestOf` as soon as the state's index
is at most the scanned index (the tie branch of `bestOf` cannot fire). -/
theorem minStep_eq_bestOf {source : ℕ → FV} {st : FV × ℕ} {i : ℕ} (hi : st.2 ≤ i) :
    minStep source st i = bestOf st (source i, i) := by
  unfold minStep bestOf
  by_cases hf : flt (source i) st.1 = true
  · simp [hf]
  · have hd : decide ((source i, i).2 < st.2) = false := decide_eq_false (by omega)
    simp [hf, hd]

theorem minStep_good (source : ℕ → FV) {P : List (FV × ℕ)} {init st : FV × ℕ} (i : ℕ)
    (h : GoodMin P init st) (hi : st.2 ≤ i) :
    GoodMin (P ++ [(source i, i)]) init (minStep source st i) := by
  rw [minStep_eq_bestOf hi]
  exact bestOf_pair_good _ h

/-- Scanning a sorted list of indices, all at least the state's index, with the
strict-less update preserves being a tie-aware minimum. -/
theorem scan_good (source : ℕ → FV) {init : FV × ℕ} :
    ∀ (l : List ℕ) {P : List (FV × ℕ)} {st : FV × ℕ},
      GoodMin P init st → (∀ t ∈ l, st.2 ≤ t) → l.Pairwise (· ≤ ·) →
      GoodMin (P ++ l.map fun t => (source t, t)) init (l.foldl (minStep source) st)
  | [], P, st, h, _, _ => by simpa using h
  | t :: l, P, st, h, hb, hp => by
    have h1 := minStep_good source t h (hb t (List.mem_cons_self _ _))
    have hb' : ∀ t' ∈ l, (minStep source st t).2 ≤ t' := by
      intro t' ht'
      unfold minStep
      split
      · exact (List.pairwise_cons.mp hp).1 t' ht'
      · exact hb t' (List.mem_cons_of_mem _ ht')
    have h2 := scan_good source l h1 hb' (List.pairwise_cons.mp hp).2
    simpa [List.append_assoc] using h2

/-! ### Propagation of a NaN in `source[0]`

If `source[0]` is NaN then no strict comparison ever succeeds, every state survives
unchanged, and all kernels as well as `bestPair` answer index `0`. -/

theorem foldl_minStep_none (source : ℕ → FV) (st : FV × ℕ) (h : st.1 = none) :
    ∀ l : List ℕ, l.foldl (minStep source) st = st
  | [] => rfl
  | i :: l => by
    have hstep : minStep source st i = st := by
      unfold minStep; rw [h, flt_none_right]; simp
    rw [List.foldl_cons, hstep, foldl_minStep_none source st h l]

theorem foldl_bestOf_none (st : FV × ℕ) (h : st.1 = none) :
    ∀ l : List (FV × ℕ), l.foldl bestOf st = st
  | [] => rfl
  | p :: l => by
    have hstep : bestOf st p = st := by
      unfold bestOf; rw [h, flt_none_right, feqv_none_right]; simp
    rw [List.foldl_cons, hstep, foldl_bestOf_none st h l]

theorem foldl_redStep_none (lanes : ℕ → FV × ℕ) (st : FV × ℕ) (h : st.1 = none) :
    ∀ js : List ℕ, js.foldl (fun st j => simdRedStep st (lanes j)) st = st
  | [] => rfl
  | j :: js => by
    have hstep : simdRedStep st (lanes j) = st := by
      rw [simdRedStep_eq_bestOf]
      unfold bestOf; rw [h, flt_none_right, feqv_none_right]; simp
    rw [List.foldl_cons, hstep, foldl_redStep_none lanes st h js]

/-- In the vector loop, lane `j` performs an independent strict-less scan of its own
strided subsequence `source[L*t + j]`, `t < k`. -/
theorem lanesFold_apply (L : ℕ) (source : ℕ → FV) (init : ℕ → FV × ℕ) :
    ∀ (k j : ℕ),
      ((List.range k).foldl (simdLanesStep L source) init) j
        = ((List.range k).map fun t => L * t + j).foldl (minStep source) (init j)
  | 0, _ => rfl
  | k + 1, j => by
    rw [List.range_succ, List.foldl_append, List.map_append, List.foldl_append,
      ← lanesFold_apply L source init k j]
    rfl

/-- Splitting the canonical pair list at an intermediate bound. -/
theorem pairsUpTo_split (source : ℕ → FV) (m k : ℕ) :
    pairsUpTo source (m + k)
      = pairsUpTo source m ++ (List.range' m k).map fun t => (source t, t) := by
  unfold pairsUpTo
  rw [List.range_eq_range', List.range_eq_range', ← List.map_append]
  congr 1
  have h := List.range'_append_1 0 m k
  rw [Nat.zero_add] at h
  rw [Nat.add_comm m k]
  exact h.symm

/-- The generic kernel computes the canonical tie-aware first minimum. -/
theorem generic_eq_bestPair (source : ℕ → FV) (np : ℕ) :
    volk_32f_index_min_16u_generic source np = (bestPair source (min np 65535)).2 := by
  have hdef : volk_32f_index_min_16u_generic source np
      = ((List.range' 1 (min np 65535 - 1)).foldl (minStep source) (source 0, 0)).2 := rfl
  rw [hdef]
  obtain h0 | ⟨a, h0⟩ := Option.eq_none_or_eq_some (source 0)
  · rw [foldl_minStep_none source (source 0, 0) (by simpa using h0)]
    unfold bestPair
    rw [foldl_bestOf_none (source 0, 0) (by simpa using h0)]
  · set n := min np 65535 with hn
    have hgood1 := scan_good source (List.range' 1 (n - 1))
      (goodMin_nil (source 0, 0) a (by simpa using h0))
      (fun t _ => Nat.zero_le t) (List.pairwise_le_range' 1 (n - 1))
    rw [List.nil_append] at hgood1
    have hgood2 := bestPair_good source n h0
    have hiff : ∀ x, x ∈ (source 0, 0) :: (List.range' 1 (n - 1)).map (fun t => (source t, t))
        ↔ x ∈ (source 0, 0) :: pairsUpTo source n := by
      intro x
      rcases Nat.eq_zero_or_pos n with hn0 | hn1
      · simp [hn0, pairsUpTo]
      · have hsplit : List.range n = 0 :: List.range' 1 (n - 1) := by
          rw [List.range_eq_range']
          conv_lhs => rw [show n = n - 1 + 1 by omega]
          rw [List.range'_succ]
        simp only [pairsUpTo, hsplit, List.map_cons, List.mem_cons]
        tauto
    exact congrArg Prod.snd (goodMin_unique (goodMin_congr hiff hgood1) hgood2)

/-- The `L`-lane SIMD kernel body computes the canonical tie-aware first minimum. -/
theorem indexMinSimd_eq_bestPair (L : ℕ) (hL : 0 < L) (source : ℕ → FV) (np : ℕ) :
    indexMinSimd L source np = (bestPair source (min np 65535)).2 := by
  have hdef : indexMinSimd L source np
      = ((List.range' (L * (min np 65535 / L)) (min np 65535 - L * (min np 65535 / L))).foldl
          (minStep source)
          ((List.range L).foldl
            (fun st j =>
              simdRedStep st
                (((List.range (min np 65535 / L)).foldl (simdLanesStep L source)
                  fun _ => (source 0, 0)) j))
            (source 0, 0))).2 := rfl
  rw [hdef]
  obtain h0 | ⟨a, h0⟩ := Option.eq_none_or_eq_some (source 0)
  · -- NaN in `source[0]`: every state survives unchanged and the answer is index 0
    have hlane : ∀ j, ((List.range (min np 65535 / L)).foldl (simdLanesStep L source)
        fun _ => (source 0, 0)) j = (source 0, 0) := by
      intro j
      rw [lanesFold_apply, foldl_minStep_none source (source 0, 0) (by simpa using h0)]
    have hred : ((List.range L).foldl
        (fun st j =>
          simdRedStep st
            (((List.range (min np 65535 / L)).foldl (simdLanesStep L source)
              fun _ => (source 0, 0)) j))
          (source 0, 0)) = (source 0, 0) := by
      simp only [hlane]
      exact foldl_redStep_none _ (source 0, 0) (by simpa using h0) _
    rw [hred, foldl_minStep_none source (source 0, 0) (by simpa using h0)]
    unfold bestPair
    rw [foldl_bestOf_none (source 0, 0) (by simpa using h0)]
  · set n := min np 65535 with hn
    set vecN := n / L with hvecN
    set Lf : ℕ → List (FV × ℕ) :=
      fun j => ((List.range vecN).map fun t => L * t + j).map fun t => (source t, t) with hLf
    have hsome : ((source 0, 0) : FV × ℕ).1 = some a := by simpa using h0
    -- each lane is a tie-aware minimum of its strided subsequence
    have hlanegood : ∀ j, GoodMin (Lf j) (source 0, 0)
        (((List.range vecN).foldl (simdLanesStep L source) fun _ => (source 0, 0)) j) := by
      intro j
      rw [lanesFold_apply]
      have h := scan_good source ((List.range vecN).map fun t => L * t + j)
        (goodMin_nil (source 0, 0) a hsome)
        (fun t _ => Nat.zero_le t)
        (by
          rw [List.range_eq_range']
          exact (List.pairwise_le_range' 0 vecN).map _
            fun x y hxy => Nat.add_le_add_right (Nat.mul_le_mul_left L hxy) j)
      simpa [hLf] using h
    -- the reduction combines the lanes into a tie-aware minimum of the vector region
    have hredgood : GoodMin ((List.range L).flatMap Lf) (source 0, 0)
        ((List.range L).foldl
          (fun st j =>
            simdRedStep st
              (((List.range vecN).foldl (simdLanesStep L source)
                fun _ => (source 0, 0)) j))
          (source 0, 0)) := by
      have h := redFold_good
        (fun j => ((List.range vecN).foldl (simdLanesStep L source)
          fun _ => (source 0, 0)) j) Lf (List.range L)
        (goodMin_nil (source 0, 0) a hsome)
        (fun j _ => hlanegood j)
      simp only [List.nil_append] at h
      simpa only [simdRedStep_eq_bestOf] using h
    -- the flattened lane lists and the vector-region pair list have the same members
    have hiff : ∀ x, x ∈ (source 0, 0) :: (List.range L).flatMap Lf
        ↔ x ∈ (source 0, 0) :: pairsUpTo source (L * vecN) := by
      intro x
      simp only [List.mem_cons, List.mem_flatMap, List.mem_map, List.mem_range, pairsUpTo, hLf]
      constructor
      · rintro (rfl | ⟨j, hj, ⟨t, ⟨u, hu, rfl⟩, rfl⟩⟩)
        · exact Or.inl rfl
        · refine Or.inr ⟨L * u + j, ?_, rfl⟩
          calc L * u + j < L * u + L := Nat.add_lt_add_left hj _
            _ = L * (u + 1) := by ring
            _ ≤ L * vecN := Nat.mul_le_mul_left L hu
      · rintro (rfl | ⟨u, hu, rfl⟩)
        · exact Or.inl rfl
        · refine Or.inr ⟨u % L, Nat.mod_lt u hL, ⟨u, ⟨u / L,
            (Nat.div_lt_iff_lt_mul hL).mpr (by rw [Nat.mul_comm]; exact hu), ?_⟩, rfl⟩⟩
          exact Nat.div_add_mod u L
    have hredgood' := goodMin_congr hiff hredgood
    -- the reduced state's index lies in the vector region
    have hred2 : (((List.range L).foldl
        (fun st j =>
          simdRedStep st
            (((List.range vecN).foldl (simdLanesStep L source)
              fun _ => (source 0, 0)) j))
          (source 0, 0))).2 ≤ L * vecN := by
      rcases List.mem_cons.mp hredgood'.mem with heq | hmem
      · rw [heq]
        exact Nat.zero_le _
      · simp only [pairsUpTo, List.mem_map, List.mem_range] at hmem
        obtain ⟨u, hu, heq⟩ := hmem
        rw [← heq]
        exact Nat.le_of_lt hu
    -- the cleanup scan extends it over the tail region
    have hfinal := scan_good source (List.range' (L * vecN) (n - L * vecN)) hredgood'
      (fun t ht => hred2.trans (List.mem_range'_1.mp ht).1)
      (List.pairwise_le_range' _ _)
    -- the two pair lists concatenate to the pair list of the whole range
    have hLvn : L * vecN ≤ n := by
      rw [hvecN, Nat.mul_comm]
      exact Nat.div_mul_le_self n L
    have hsplit : pairsUpTo source (L * vecN)
        ++ (List.range' (L * vecN) (n - L * vecN)).map (fun t => (source t, t))
        = pairsUpTo source n := by
      rw [← pairsUpTo_split, Nat.add_sub_cancel' hLvn]
    rw [hsplit] at hfinal
    exact congrArg Prod.snd (goodMin_unique hfinal (bestPair_good source n h0))

theorem a_avx_eq_bestPair (source : ℕ → FV) (np : ℕ) :
    volk_32f_index_min_16u_a_avx source np = (bestPair source (min np 65535)).2 :=
  indexMinSimd_eq_bestPair 8 (by norm_num) source np

theorem u_avx_eq_bestPair (source : ℕ → FV) (np : ℕ) :
    volk_32f_index_min_16u_u_avx source np = (bestPair source (min np 65535)).2 :=
  indexMinSimd_eq_bestPair 8 (by norm_num) source np

theorem a_sse4_1_eq_bestPair (source : ℕ → FV) (np : ℕ) :
    volk_32f_index_min_16u_a_sse4_1 source np = (bestPair source (min np 65535)).2 :=
  indexMinSimd_eq_bestPair 4 (by norm_num) source np

theorem a_sse_eq_bestPair (source : ℕ → FV) (np : ℕ) :
    volk_32f_index_min_16u_a_sse source np = (bestPair source (min np 65535)).2 :=
  indexMinSimd_eq_bestPair 4 (by norm_num) source np

/-- The result of `bestPair` attains the minimum value and is the lowest index doing so,
provided `source[0]` is not NaN, the value `m` is attained below `n`, and no element
below `n` is strictly smaller than `m`. -/
theorem bestPair_attains (source : ℕ → FV) (n : ℕ) (m : ℚ) (i : ℕ)
    (h0 : source 0 ≠ none) (hi : i < n) (hm : source i = some m)
    (hmin : ∀ t, t < n → flt (source t) (some m) = false) :
    source (bestPair source n).2 = some m ∧
      ∀ t < (bestPair source n).2, source t ≠ some m := by
  obtain ⟨a, h0'⟩ := Option.ne_none_iff_exists'.mp h0
  have good := bestPair_good source n h0'
  have hmem : ∃ u, u < n ∧ bestPair source n = (source u, u) := by
    rcases List.mem_cons.mp good.mem with heq | hmem
    · exact ⟨0, Nat.zero_lt_of_lt hi, heq⟩
    · simp only [pairsUpTo, List.mem_map, List.mem_range] at hmem
      obtain ⟨u, hu, heq⟩ := hmem
      exact ⟨u, hu, heq.symm⟩
  obtain ⟨u, hu, hequ⟩ := hmem
  have hmemi : ((source i, i) : FV × ℕ) ∈ pairsUpTo source n := by
    simp only [pairsUpTo, List.mem_map, List.mem_range]
    exact ⟨i, hi, rfl⟩
  obtain ⟨c, hc, hd⟩ := good.dom (source i, i) (List.mem_cons_of_mem _ hmemi)
  have hcu : source u = some c := by rw [hequ] at hc; exact hc
  have hmc : ¬ c < m := by
    have hf := hmin u hu
    rw [hcu] at hf
    simpa [flt] using hf
  rcases hd m (by simpa using hm) with hlt | ⟨hceq, hle⟩
  · exact absurd hlt hmc
  · subst hceq
    constructor
    · rw [hequ]; exact hcu
    · intro t ht hts
      have htn : t < n := by
        have hru : (bestPair source n).2 = u := by rw [hequ]
        omega
      have hmemt : ((source t, t) : FV × ℕ) ∈ pairsUpTo source n := by
        simp only [pairsUpTo, List.mem_map, List.mem_range]
        exact ⟨t, htn, rfl⟩
      obtain ⟨c', hc', hd'⟩ := good.dom (source t, t) (List.mem_cons_of_mem _ hmemt)
      have hc'c : c' = c := by
        rw [hequ] at hc'
        simp only at hc'
        rw [hcu] at hc'
        exact (Option.some.inj hc').symm
      rcases hd' c (by simpa using hts) with hlt' | ⟨_, hle'⟩
      · exact absurd (hc'c ▸ hlt') (lt_irrefl _)
      · simp only at hle'
        omega

theorem bestPair_snd_lt (source : ℕ → FV) {n : ℕ} (hn : 0 < n) :
    (bestPair source n).2 < n := by
  obtain h0 | ⟨a, h0⟩ := Option.eq_none_or_eq_some (source 0)
  · unfold bestPair
    rw [foldl_bestOf_none (source 0, 0) (by simpa using h0)]
    exact hn
  · have good := bestPair_good source n h0
    rcases List.mem_cons.mp good.mem with heq | hmem
    · rw [heq]; exact hn
    · simp only [pairsUpTo, List.mem_map, List.mem_range] at hmem
      obtain ⟨u, hu, heq⟩ := hmem
      rw [← heq]
      exact hu

theorem bestPair_congr {s s' : ℕ → FV} {n : ℕ} (hn : 0 < n)
    (hag : ∀ t, t < n → s t = s' t) : bestPair s n = bestPair s' n := by
  unfold bestPair pairsUpTo
  rw [hag 0 hn]
  congr 1
  exact List.map_congr_left fun t ht => by rw [hag t (List.mem_range.mp ht)]

/-- C1: for every input buffer content and every `num_points`, each SIMD variant of the
index-of-minimum kernel (`a_avx`, `a_sse4_1`, `a_sse`, `u_avx`) writes to `target[0]`
exactly the same index as `volk_32f_index_min_16u_generic` on identical inputs.  This
is stated for all `num_points`, which subsumes the claim's `num_points ≥ 1`, and for
all buffer contents including NaN values. -/
theorem C1_simd_index_min_variants_agree_with_generic (source : ℕ → FV) (num_points : ℕ) :
    volk_32f_index_min_16u_a_avx source num_points
        = volk_32f_index_min_16u_generic source num_points ∧
      volk_32f_index_min_16u_a_sse4_1 source num_points
        = volk_32f_index_min_16u_generic source num_points ∧
      volk_32f_index_min_16u_a_sse source num_points
        = volk_32f_index_min_16u_generic source num_points ∧
      volk_32f_index_min_16u_u_avx source num_points
        = volk_32f_index_min_16u_generic source num_points := by
  refine ⟨?_, ?_, ?_, ?_⟩ <;> rw [generic_eq_bestPair]
  · exact a_avx_eq_bestPair source num_points
  · exact a_sse4_1_eq_bestPair source num_points
  · exact a_sse_eq_bestPair source num_points
  · exact u_avx_eq_bestPair source num_points

/-- C2: for every variant of `volk_32f_index_min_16u`, when a minimum value `m` of the
clamped range is attained (in particular when it is attained at several indices), the
index written to `target[0]` attains `m` and no smaller index does — the lowest index
wins.  `source[0]` is assumed non-NaN, and `flt (source t) (some m) = false` states
that no element of the clamped range is strictly below `m`. -/
theorem C2_index_min_lowest_index_wins (source : ℕ → FV) (num_points : ℕ) (m : ℚ) (i : ℕ)
    (hNN : source 0 ≠ none)
    (hi : i < min num_points 65535) (hm : source i = some m)
    (hmin : ∀ t, t < min num_points 65535 → flt (source t) (some m) = false) :
    ∀ r ∈ [volk_32f_index_min_16u_generic source num_points,
        volk_32f_index_min_16u_a_avx source num_points,
        volk_32f_index_min_16u_a_sse4_1 source num_points,
        volk_32f_index_min_16u_a_sse source num_points,
        volk_32f_index_min_16u_u_avx source num_points],
      source r = some m ∧ ∀ t < r, source t ≠ some m := by
  have hbp := bestPair_attains source (min num_points 65535) m i hNN hi hm hmin
  intro r hr
  simp only [List.mem_cons, List.not_mem_nil, or_false] at hr
  rcases hr with rfl | rfl | rfl | rfl | rfl
  · rw [generic_eq_bestPair]; exact hbp
  · rw [a_avx_eq_bestPair]; exact hbp
  · rw [a_sse4_1_eq_bestPair]; exact hbp
  · rw [a_sse_eq_bestPair]; exact hbp
  · rw [u_avx_eq_bestPair]; exact hbp

/-- Witness for C2 at the spec's tie example `[5, 2, 2, 7]`, `num_points = 4`: the
hypotheses hold, the conclusion follows from the theorem, and every variant writes
index 1. -/
theorem C2_index_min_lowest_index_wins_witness :
    (tieExample 0 ≠ none ∧ 1 < min 4 65535 ∧ tieExample 1 = some 2 ∧
      ∀ t, t < min 4 65535 → flt (tieExample t) (some 2) = false) ∧
    (∀ r ∈ [volk_32f_index_min_16u_generic tieExample 4,
        volk_32f_index_min_16u_a_avx tieExample 4,
        volk_32f_index_min_16u_a_sse4_1 tieExample 4,
        volk_32f_index_min_16u_a_sse tieExample 4,
        volk_32f_index_min_16u_u_avx tieExample 4],
      tieExample r = some 2 ∧ ∀ t < r, tieExample t ≠ some 2) ∧
    volk_32f_index_min_16u_generic tieExample 4 = 1 ∧
    volk_32f_index_min_16u_a_avx tieExample 4 = 1 ∧
    volk_32f_index_min_16u_a_sse4_1 tieExample 4 = 1 ∧
    volk_32f_index_min_16u_a_sse tieExample 4 = 1 ∧
    volk_32f_index_min_16u_u_avx tieExample 4 = 1 :=
  ⟨⟨by decide, by decide, by decide, by decide⟩,
    C2_index_min_lowest_index_wins tieExample 4 2 1 (by decide) (by decide) (by decide)
      (by decide),
    by decide, by decide, by decide, by decide, by decide⟩

/-- C5: when `num_points` exceeds `USHRT_MAX = 65535`, every variant of
`volk_32f_index_min_16u` clamps the effective length: the result equals the result of
the same variant at `num_points = 65535`, and elements at indices `≥ 65535` never
influence the output (any buffer agreeing below 65535 yields the same result). -/
theorem C5_index_min_clamps_to_ushrt_max (source : ℕ → FV) (num_points : ℕ)
    (h : 65535 < num_points) :
    ∀ V ∈ [volk_32f_index_min_16u_generic, volk_32f_index_min_16u_a_avx,
        volk_32f_index_min_16u_a_sse4_1, volk_32f_index_min_16u_a_sse,
        volk_32f_index_min_16u_u_avx],
      V source num_points = V source 65535 ∧
        ∀ source' : ℕ → FV, (∀ t, t < 65535 → source t = source' t) →
          V source num_points = V source' num_points := by
  intro V hV
  simp only [List.mem_cons, List.not_mem_nil, or_false] at hV
  have hkey : ∀ s : ℕ → FV, ∀ np', min np' 65535 = 65535 →
      V s np' = (bestPair s 65535).2 := by
    intro s np' hnp'
    rcases hV with rfl | rfl | rfl | rfl | rfl
    · rw [generic_eq_bestPair, hnp']
    · rw [a_avx_eq_bestPair, hnp']
    · rw [a_sse4_1_eq_bestPair, hnp']
    · rw [a_sse_eq_bestPair, hnp']
    · rw [u_avx_eq_bestPair, hnp']
  constructor
  · rw [hkey source num_points (by omega), hkey source 65535 (by omega)]
  · intro source' hag
    rw [hkey source num_points (by omega), hkey source' num_points (by omega),
      bestPair_congr (by norm_num) hag]

/-- Witness for C5 at `num_points = 65536` on the all-zero buffer. -/
theorem C5_index_min_clamps_to_ushrt_max_witness :
    65535 < 65536 ∧
    ∀ V ∈ [volk_32f_index_min_16u_generic, volk_32f_index_min_16u_a_avx,
        volk_32f_index_min_16u_a_sse4_1, volk_32f_index_min_16u_a_sse,
        volk_32f_index_min_16u_u_avx],
      V constZeroSource 65536 = V constZeroSource 65535 ∧
        ∀ source' : ℕ → FV, (∀ t, t < 65535 → constZeroSource t = source' t) →
          V constZeroSource 65536 = V source' 65536 :=
  ⟨by decide, C5_index_min_clamps_to_ushrt_max constZeroSource 65536 (by decide)⟩

/-- C10: for `num_points ≥ 1`, every variant of `volk_32f_index_min_16u` writes an
index strictly below the clamped effective length `min num_points USHRT_MAX` — a valid
in-range index of the source buffer — for every buffer content, including NaN values,
and for `num_points` beyond the `uint16_t` range. -/
theorem C10_index_min_result_in_clamped_range (source : ℕ → FV) (num_points : ℕ)
    (h : 1 ≤ num_points) :
    ∀ r ∈ [volk_32f_index_min_16u_generic source num_points,
        volk_32f_index_min_16u_a_avx source num_points,
        volk_32f_index_min_16u_a_sse4_1 source num_points,
        volk_32f_index_min_16u_a_sse source num_points,
        volk_32f_index_min_16u_u_avx source num_points],
      r < min num_points 65535 := by
  have hn : 0 < min num_points 65535 := by omega
  have hbp := bestPair_snd_lt source hn
  intro r hr
  simp only [List.mem_cons, List.not_mem_nil, or_false] at hr
  rcases hr with rfl | rfl | rfl | rfl | rfl
  · rw [generic_eq_bestPair]; exact hbp
  · rw [a_avx_eq_bestPair]; exact hbp
  · rw [a_sse4_1_eq_bestPair]; exact hbp
  · rw [a_sse_eq_bestPair]; exact hbp
  · rw [u_avx_eq_bestPair]; exact hbp

/-- Witness for C10 at the `[5, 2, 2, 7]` buffer with `num_points = 4`. -/
theorem C10_index_min_result_in_clamped_range_witness :
    1 ≤ 4 ∧
    ∀ r ∈ [volk_32f_index_min_16u_generic tieExample 4,
        volk_32f_index_min_16u_a_avx tieExample 4,
        volk_32f_index_min_16u_a_sse4_1 tieExample 4,
        volk_32f_index_min_16u_a_sse tieExample 4,
        volk_32f_index_min_16u_u_avx tieExample 4],
      r < min 4 65535 :=
  ⟨by decide, C10_index_min_result_in_clamped_range tieExample 4 (by decide)⟩

theorem avx2Block8_eq (sr si scalar : ℚ) (p : ℕ → ℚ) (c : ℕ) :
    avx2Block8 sr si scalar p c = (List.range' c 8).map (dval sr si scalar p) := by
  have h1 : List.range' c 8 = [c, c+1, c+2, c+3, c+4, c+5, c+6, c+7] := by
    simp [List.range'_succ]
  rw [h1]
  simp only [avx2Block8, load8, vsub, vmul, hadd8, permuteIdx, set1x8, List.zipWith, dval,
    List.map]
  norm_num [Nat.mul_add, Nat.add_assoc]

theorem avx2Block4_eq (sr si scalar : ℚ) (p : ℕ → ℚ) (c : ℕ) :
    avx2Block4 sr si scalar p c = (List.range' c 4).map (dval sr si scalar p) := by
  have h1 : List.range' c 4 = [c, c+1, c+2, c+3] := by simp [List.range'_succ]
  rw [h1]
  simp only [avx2Block4, load8, vsub, vmul, hadd8, permuteIdx, set1x8, hi128, List.zipWith,
    dval, List.map]
  norm_num [Nat.mul_add, Nat.add_assoc]

theorem avx2Block2_eq (sr si scalar : ℚ) (p : ℕ → ℚ) (c : ℕ) :
    avx2Block2 sr si scalar p c = (List.range' c 2).map (dval sr si scalar p) := by
  have h1 : List.range' c 2 = [c, c+1] := by simp [List.range'_succ]
  rw [h1]
  simp only [avx2Block2, load4, vsub, vmul, hadd4, set1x4, storeh, List.zipWith, dval,
    List.map]
  norm_num [Nat.mul_add, Nat.add_assoc]

theorem calc_scaled_distances_eq (sr si scalar : ℚ) (p : ℕ → ℚ) (off cnt : ℕ) :
    calculate_scaled_distances sr si scalar p off cnt
      = (List.range' off cnt).map (dval sr si scalar p) := by
  unfold calculate_scaled_distances
  rw [List.range'_eq_map_range off cnt, List.map_map]
  apply List.map_congr_left
  intro i _
  simp only [Function.comp, dval]
  exact mul_comm scalar _

theorem flatMap_blocks {α : Type} (g : ℕ → α) (f : ℕ → List α) (o L : ℕ)
    (hf : ∀ i, f i = (List.range' (o + L * i) L).map g) :
    ∀ b, (List.range b).flatMap f = (List.range' o (L * b)).map g
  | 0 => by simp
  | b + 1 => by
    rw [List.range_succ, List.flatMap_append, flatMap_blocks g f o L hf b]
    have h2 : List.flatMap [b] f = (List.range' (o + L * b) L).map g := by simp [hf b]
    rw [h2, ← List.map_append, List.range'_append_1]
    congr 1
    rw [Nat.mul_succ]
    exact congrArg (List.range' o) (Nat.add_comm L (L * b))

theorem map_range'_concat {α : Type} (g : ℕ → α) (o a c b : ℕ) (h : c = o + a) :
    (List.range' o a).map g ++ (List.range' c b).map g
      = (List.range' o (a + b)).map g := by
  subst h
  rw [← List.map_append, List.range'_append_1, Nat.add_comm b a]

theorem avx2_aligned_parts (sr si scalar : ℚ) (p : ℕ → ℚ) (nb : ℕ) :
    (((List.range (nb / 64)).flatMap fun i => avx2Block8 sr si scalar p (8 * i))
      ++ ((List.range (nb / 32 % 2)).flatMap fun i =>
            avx2Block4 sr si scalar p (8 * (nb / 64) + 4 * i))
      ++ ((List.range (nb / 16 % 2)).flatMap fun i =>
            avx2Block2 sr si scalar p (8 * (nb / 64) + 4 * (nb / 32 % 2) + 2 * i))
      ++ calculate_scaled_distances sr si scalar p
          (8 * (nb / 64) + 4 * (nb / 32 % 2) + 2 * (nb / 16 % 2)) (nb / 8 % 2))
    = (List.range (nb / 8)).map (dval sr si scalar p) := by
  set b := nb / 64 with hb
  set l0 := nb / 32 % 2 with hl0
  set l1 := nb / 16 % 2 with hl1
  set l2 := nb / 8 % 2 with hl2
  rw [flatMap_blocks (dval sr si scalar p) _ 0 8
      (fun i => by rw [Nat.zero_add]; exact avx2Block8_eq sr si scalar p (8 * i)) b]
  rw [flatMap_blocks (dval sr si scalar p) _ (8 * b) 4
      (fun i => avx2Block4_eq sr si scalar p (8 * b + 4 * i)) l0]
  rw [flatMap_blocks (dval sr si scalar p) _ (8 * b + 4 * l0) 2
      (fun i => avx2Block2_eq sr si scalar p (8 * b + 4 * l0 + 2 * i)) l1]
  rw [calc_scaled_distances_eq]
  rw [map_range'_concat (dval sr si scalar p) 0 (8 * b) (8 * b) (4 * l0)
      (Nat.zero_add _).symm]
  rw [map_range'_concat (dval sr si scalar p) 0 (8 * b + 4 * l0) (8 * b + 4 * l0) (2 * l1)
      (Nat.zero_add _).symm]
  rw [map_range'_concat (dval sr si scalar p) 0 (8 * b + 4 * l0 + 2 * l1)
      (8 * b + 4 * l0 + 2 * l1) l2 (Nat.zero_add _).symm]
  rw [List.range_eq_range']
  have hcount : 8 * b + 4 * l0 + 2 * l1 + l2 = nb / 8 := by omega
  rw [hcount]

theorem avx2_unaligned_parts (sr si scalar : ℚ) (p : ℕ → ℚ) (nb : ℕ) :
    (((List.range (nb / 64)).flatMap fun i => avx2Block8 sr si scalar p (8 * i))
      ++ ((List.range (nb / 32 % 2)).flatMap fun i =>
            avx2Block4 sr si scalar p (8 * (nb / 64) + 4 * i))
      ++ calculate_scaled_distances sr si scalar p
          (8 * (nb / 64) + 4 * (nb / 32 % 2)) (nb / 8 % 4))
    = (List.range (nb / 8)).map (dval sr si scalar p) := by
  set b := nb / 64 with hb
  set l0 := nb / 32 % 2 with hl0
  set l1 := nb / 8 % 4 with hl1
  rw [flatMap_blocks (dval sr si scalar p) _ 0 8
      (fun i => by rw [Nat.zero_add]; exact avx2Block8_eq sr si scalar p (8 * i)) b]
  rw [flatMap_blocks (dval sr si scalar p) _ (8 * b) 4
      (fun i => avx2Block4_eq sr si scalar p (8 * b + 4 * i)) l0]
  rw [calc_scaled_distances_eq]
  rw [map_range'_concat (dval sr si scalar p) 0 (8 * b) (8 * b) (4 * l0)
      (Nat.zero_add _).symm]
  rw [map_range'_concat (dval sr si scalar p) 0 (8 * b + 4 * l0) (8 * b + 4 * l0) l1
      (Nat.zero_add _).symm]
  rw [List.range_eq_range']
  have hcount : 8 * b + 4 * l0 + l1 = nb / 8 := by omega
  rw [hcount]

theorem a_avx2_writes (sr si scalar : ℚ) (p : ℕ → ℚ) (np : ℕ) :
    volk_32fc_x2_s32f_square_dist_scalar_mult_32f_a_avx2 sr si p scalar np
      = (List.range (np * 8 % 2 ^ 32 / 8)).map (dval sr si scalar p) :=
  avx2_aligned_parts sr si scalar p (np * 8 % 2 ^ 32)

theorem u_avx2_writes (sr si scalar : ℚ) (p : ℕ → ℚ) (np : ℕ) :
    volk_32fc_x2_s32f_square_dist_scalar_mult_32f_u_avx2 sr si p scalar np
      = (List.range (np * 8 % 2 ^ 32 / 8)).map (dval sr si scalar p) :=
  avx2_unaligned_parts sr si scalar p (np * 8 % 2 ^ 32)

/-- C7: for every `num_points` and logically identical buffer content, the aligned and
unaligned forms of the same variant produce identical results:
`volk_32f_index_min_16u_a_avx` / `_u_avx` write the same index to `target[0]`, and
`volk_32fc_x2_s32f_square_dist_scalar_mult_32f_a_avx2` / `_u_avx2` store the same
sequence of values to `target` — also in the remainder cases where their leftover
handling differs. -/
theorem C7_aligned_unaligned_forms_agree :
    (∀ (source : ℕ → FV) (num_points : ℕ),
      volk_32f_index_min_16u_u_avx source num_points
        = volk_32f_index_min_16u_a_avx source num_points) ∧
    ∀ (sr si : ℚ) (p : ℕ → ℚ) (scalar : ℚ) (num_points : ℕ),
      volk_32fc_x2_s32f_square_dist_scalar_mult_32f_u_avx2 sr si p scalar num_points
        = volk_32fc_x2_s32f_square_dist_scalar_mult_32f_a_avx2 sr si p scalar num_points :=
  ⟨fun _ _ => rfl, fun sr si p scalar np => by rw [a_avx2_writes, u_avx2_writes]⟩

/-- C3 (bounds claim, failing input): at `num_points = 3` the SSE3 square-distance
kernel stores 7 floats to `target[0..7)` and loads the 14 floats of `points[0..7)`,
both outside the documented range `[0, 3)` — while the generic and aligned-AVX2
variants store exactly 3 values there.  This is the unconditionally executed peeled
`__m128` block (and the loads feeding it) of
`volk_32fc_x2_s32f_square_dist_scalar_mult_32f_a_sse3`. -/
theorem C3_sse3_out_of_bounds_at_num_points_3 :
    (volk_32fc_x2_s32f_square_dist_scalar_mult_32f_a_sse3 0 0 constZeroQ 1 3).length = 7 ∧
      sse3PointFloatReads 3 = [0, 1, 2, 3, 4, 5, 6, 7, 8, 9, 10, 11, 12, 13] ∧
      (volk_32fc_x2_s32f_square_dist_scalar_mult_32f_generic 0 0 constZeroQ 1 3).length = 3 ∧
      (volk_32fc_x2_s32f_square_dist_scalar_mult_32f_a_avx2 0 0 constZeroQ 1 3).length = 3 := by
  decide

/-- C4 (N = 0 claim, failing input): at `num_points = 0` the SSE3 square-distance
kernel still stores 4 floats to `target[0..4)` and loads the 8 floats of
`points[0..4)`, while the generic, AVX and both AVX2 variants store nothing. -/
theorem C4_sse3_touches_buffers_at_num_points_0 :
    (volk_32fc_x2_s32f_square_dist_scalar_mult_32f_a_sse3 0 0 constZeroQ 1 0).length = 4 ∧
      sse3PointFloatReads 0 = [0, 1, 2, 3, 4, 5, 6, 7] ∧
      volk_32fc_x2_s32f_square_dist_scalar_mult_32f_generic 0 0 constZeroQ 1 0 = [] ∧
      volk_32fc_x2_s32f_square_dist_scalar_mult_32f_a_avx2 0 0 constZeroQ 1 0 = [] ∧
      volk_32fc_x2_s32f_square_dist_scalar_mult_32f_u_avx2 0 0 constZeroQ 1 0 = [] ∧
      volk_32fc_x2_s32f_square_dist_scalar_mult_32f_a_avx 0 0 constZeroQ 1 0 = [] := by
  decide

/-- C8: the popcount puppet adapters expose exactly the (output buffer, input buffer,
element count) shape and delegate the numeric semantics unchanged: the output has
exactly `num_points` entries, and entry `ii` is the wrapped single-word kernel applied
to `inVector[ii]`; nothing else is computed or written. -/
theorem C8_popcnt_puppets_delegate_elementwise (inVector : ℕ → ℕ) (num_points : ℕ) :
    (volk_32u_popcntpuppet_32u_e2k inVector num_points).length = num_points ∧
    (volk_32u_popcntpuppet_32u_a_sse4_2 inVector num_points).length = num_points ∧
    ∀ ii, ii < num_points →
      (volk_32u_popcntpuppet_32u_e2k inVector num_points).getD ii 0
          = volk_32u_popcnt_e2k (inVector ii) ∧
        (volk_32u_popcntpuppet_32u_a_sse4_2 inVector num_points).getD ii 0
          = volk_32u_popcnt_a_sse4_2 (inVector ii) := by
  refine ⟨by simp [volk_32u_popcntpuppet_32u_e2k],
    by simp [volk_32u_popcntpuppet_32u_a_sse4_2], fun ii hii => ⟨?_, ?_⟩⟩
  · simp [volk_32u_popcntpuppet_32u_e2k, List.getD_eq_getElem?_getD, List.getElem?_map,
      List.getElem?_range, hii]
  · simp [volk_32u_popcntpuppet_32u_a_sse4_2, List.getD_eq_getElem?_getD, List.getElem?_map,
      List.getElem?_range, hii]

/-- Witness for C8 with `inVector[ii] = ii` and `num_points = 3`. -/
theorem C8_popcnt_puppets_delegate_elementwise_witness :
    (volk_32u_popcntpuppet_32u_e2k (fun i => i) 3).length = 3 ∧
    (volk_32u_popcntpuppet_32u_a_sse4_2 (fun i => i) 3).length = 3 ∧
    ∀ ii, ii < 3 →
      (volk_32u_popcntpuppet_32u_e2k (fun i => i) 3).getD ii 0
          = volk_32u_popcnt_e2k ii ∧
        (volk_32u_popcntpuppet_32u_a_sse4_2 (fun i => i) 3).getD ii 0
          = volk_32u_popcnt_a_sse4_2 ii :=
  C8_popcnt_puppets_delegate_elementwise (fun i => i) 3

theorem sse3Block4_eq (sr si scalar : ℚ) (p : ℕ → ℚ) (c : ℕ) :
    sse3Block4 sr si scalar p c = (List.range' c 4).map (dval sr si scalar p) := by
  have h1 : List.range' c 4 = [c, c+1, c+2, c+3] := by simp [List.range'_succ]
  rw [h1]
  simp only [sse3Block4, load4, vsub, vmul, hadd4, set1x4, List.zipWith, dval, List.map]
  norm_num [Nat.mul_add, Nat.add_assoc]

theorem avxBlock8_eq (sr si scalar : ℚ) (p : ℕ → ℚ) (c : ℕ) :
    avxBlock8 sr si scalar p c = (List.range' c 8).map (dval sr si scalar p) := by
  have h1 : List.range' c 8 = [c, c+1, c+2, c+3, c+4, c+5, c+6, c+7] := by
    simp [List.range'_succ]
  rw [h1]
  simp only [avxBlock8, load8, vsub, vmul, hadd8, lo128, hi128, permute4E, blendCC, set1x8,
    List.zipWith, dval, List.map, List.append]
  norm_num [Nat.mul_add, Nat.add_assoc]

theorem generic_square_dist_writes (sr si scalar : ℚ) (p : ℕ → ℚ) (np : ℕ) :
    volk_32fc_x2_s32f_square_dist_scalar_mult_32f_generic sr si p scalar np
      = (List.range' 0 np).map (dval sr si scalar p) :=
  calc_scaled_distances_eq sr si scalar p 0 np

theorem sse3_writes_16 (sr si scalar : ℚ) (p : ℕ → ℚ) :
    volk_32fc_x2_s32f_square_dist_scalar_mult_32f_a_sse3 sr si p scalar 16
      = (List.range' 0 16).map (dval sr si scalar p) := by
  show ((List.range 3).flatMap fun i => sse3Block4 sr si scalar p (4 * i))
      ++ sse3Block4 sr si scalar p (4 * 3)
      ++ ((List.range 0).flatMap fun i => sse3Block2 sr si scalar p (4 * 3 + 4 + 2 * i))
      ++ calculate_scaled_distances sr si scalar p (4 * 3 + 4 + 2 * 0) 0
      = (List.range' 0 16).map (dval sr si scalar p)
  rw [flatMap_blocks (dval sr si scalar p) _ 0 4
      (fun i => by rw [Nat.zero_add]; exact sse3Block4_eq sr si scalar p (4 * i)) 3]
  rw [show (4 : ℕ) * 3 = 12 from rfl]
  rw [sse3Block4_eq sr si scalar p 12]
  simp only [List.range_zero, List.flatMap_nil, List.append_nil]
  rw [show calculate_scaled_distances sr si scalar p (12 + 4 + 2 * 0) 0 = [] from rfl]
  rw [List.append_nil]
  rw [map_range'_concat (dval sr si scalar p) 0 12 12 4 (Nat.zero_add _).symm]

theorem a_avx_writes_16 (sr si scalar : ℚ) (p : ℕ → ℚ) :
    volk_32fc_x2_s32f_square_dist_scalar_mult_32f_a_avx sr si p scalar 16
      = (List.range' 0 16).map (dval sr si scalar p) := by
  show ((List.range 2).flatMap fun i => avxBlock8 sr si scalar p (8 * i))
      ++ calculate_scaled_distances sr si scalar p 16 0
      = (List.range' 0 16).map (dval sr si scalar p)
  rw [flatMap_blocks (dval sr si scalar p) _ 0 8
      (fun i => by rw [Nat.zero_add]; exact avxBlock8_eq sr si scalar p (8 * i)) 2]
  rw [show calculate_scaled_distances sr si scalar p 16 0 = [] from rfl]
  rw [List.append_nil]

theorem a_avx2_writes_16 (sr si scalar : ℚ) (p : ℕ → ℚ) :
    volk_32fc_x2_s32f_square_dist_scalar_mult_32f_a_avx2 sr si p scalar 16
      = (List.range' 0 16).map (dval sr si scalar p) := by
  rw [a_avx2_writes, show (16 * 8 % 2 ^ 32 / 8 : ℕ) = 16 from rfl, List.range_eq_range']

theorem u_avx2_writes_16 (sr si scalar : ℚ) (p : ℕ → ℚ) :
    volk_32fc_x2_s32f_square_dist_scalar_mult_32f_u_avx2 sr si p scalar 16
      = (List.range' 0 16).map (dval sr si scalar p) := by
  rw [u_avx2_writes, show (16 * 8 % 2 ^ 32 / 8 : ℕ) = 16 from rfl, List.range_eq_range']

/-- C6: the spec's end-to-end example: `src0 = (0.5, 2.0)`, the 16 constellation
points of the square 16-QAM grid, `scalar = 1/64`, `num_points = 16`.  The generic
variant and every capability variant (SSE3, AVX, aligned and unaligned AVX2) store
exactly 16 values, and each `output[k]` is within `1e-5` of
`((0.5 − re_k)² + (2.0 − im_k)²) / 64` (the agreement is in fact exact). -/
theorem C6_square_dist_16qam_end_to_end :
    ∀ out ∈ [volk_32fc_x2_s32f_square_dist_scalar_mult_32f_generic (1/2) 2 c6pts (1/64) 16,
        volk_32fc_x2_s32f_square_dist_scalar_mult_32f_a_sse3 (1/2) 2 c6pts (1/64) 16,
        volk_32fc_x2_s32f_square_dist_scalar_mult_32f_a_avx (1/2) 2 c6pts (1/64) 16,
        volk_32fc_x2_s32f_square_dist_scalar_mult_32f_a_avx2 (1/2) 2 c6pts (1/64) 16,
        volk_32fc_x2_s32f_square_dist_scalar_mult_32f_u_avx2 (1/2) 2 c6pts (1/64) 16],
      out.length = 16 ∧ ∀ k, k < 16 →
        -(1 / 100000 : ℚ)
            < out.getD k 0
              - ((1/2 - c6re k) * (1/2 - c6re k) + (2 - c6im k) * (2 - c6im k)) / 64 ∧
          out.getD k 0
              - ((1/2 - c6re k) * (1/2 - c6re k) + (2 - c6im k) * (2 - c6im k)) / 64
            < 1 / 100000 := by
  have hP : ∀ out, out = (List.range' 0 16).map (dval (1/2) 2 (1/64) c6pts) →
      out.length = 16 ∧ ∀ k, k < 16 →
        -(1 / 100000 : ℚ)
            < out.getD k 0
              - ((1/2 - c6re k) * (1/2 - c6re k) + (2 - c6im k) * (2 - c6im k)) / 64 ∧
          out.getD k 0
              - ((1/2 - c6re k) * (1/2 - c6re k) + (2 - c6im k) * (2 - c6im k)) / 64
            < 1 / 100000 := by
    rintro out rfl
    refine ⟨by simp, fun k hk => ?_⟩
    have hget : ((List.range' 0 16).map (dval (1/2) 2 (1/64) c6pts)).getD k 0
        = dval (1/2) 2 (1/64) c6pts k := by
      rw [List.getD_eq_getElem?_getD, List.getElem?_map, List.getElem?_range' 0 1 hk]
      simp
    rw [hget]
    interval_cases k <;>
      norm_num [dval, c6pts, c6re, c6im, constVals]
  intro out hout
  simp only [List.mem_cons, List.not_mem_nil, or_false] at hout
  rcases hout with rfl | rfl | rfl | rfl | rfl
  · exact hP _ (generic_square_dist_writes (1/2) 2 (1/64) c6pts 16)
  · exact hP _ (sse3_writes_16 (1/2) 2 (1/64) c6pts)
  · exact hP _ (a_avx_writes_16 (1/2) 2 (1/64) c6pts)
  · exact hP _ (a_avx2_writes_16 (1/2) 2 (1/64) c6pts)
  · exact hP _ (u_avx2_writes_16 (1/2) 2 (1/64) c6pts)

/-- Witness for C6: the generic variant is a member of the quantified list, and the
theorem applies to it. -/
theorem C6_square_dist_16qam_end_to_end_witness :
    volk_32fc_x2_s32f_square_dist_scalar_mult_32f_generic (1/2) 2 c6pts (1/64) 16
        ∈ [volk_32fc_x2_s32f_square_dist_scalar_mult_32f_generic (1/2) 2 c6pts (1/64) 16,
          volk_32fc_x2_s32f_square_dist_scalar_mult_32f_a_sse3 (1/2) 2 c6pts (1/64) 16,
          volk_32fc_x2_s32f_square_dist_scalar_mult_32f_a_avx (1/2) 2 c6pts (1/64) 16,
          volk_32fc_x2_s32f_square_dist_scalar_mult_32f_a_avx2 (1/2) 2 c6pts (1/64) 16,
          volk_32fc_x2_s32f_square_dist_scalar_mult_32f_u_avx2 (1/2) 2 c6pts (1/64) 16] ∧
      ((volk_32fc_x2_s32f_square_dist_scalar_mult_32f_generic (1/2) 2 c6pts (1/64) 16).length
          = 16 ∧
        ∀ k, k < 16 →
          -(1 / 100000 : ℚ)
              < (volk_32fc_x2_s32f_square_dist_scalar_mult_32f_generic (1/2) 2 c6pts
                    (1/64) 16).getD k 0
                - ((1/2 - c6re k) * (1/2 - c6re k) + (2 - c6im k) * (2 - c6im k)) / 64 ∧
            (volk_32fc_x2_s32f_square_dist_scalar_mult_32f_generic (1/2) 2 c6pts
                  (1/64) 16).getD k 0
                - ((1/2 - c6re k) * (1/2 - c6re k) + (2 - c6im k) * (2 - c6im k)) / 64
              < 1 / 100000) :=
  ⟨List.mem_cons_self _ _,
    C6_square_dist_16qam_end_to_end _ (List.mem_cons_self _ _)⟩
